import Mathlib

/-!
Verification of the vts-browser resource pipeline and traversal engine.

The definitions below are shallow embeddings of the C++ sources:
* `MapImpl::loadResource`, `MapImpl::dataTick`, `MapImpl::fetchedFile`,
  `MapImpl::dataRenderTick` (eviction) and `MapImpl::touchResource`
  from the resource-pipeline translation unit,
* `MapImpl::traverse` (hierarchical branch) from the traversal unit,
* `CameraImpl::sortOpaqueFrontToBack` from the camera unit.
Machine integers that can wrap (the uint32 memory accounting) are modelled
as `Nat` with explicit reduction modulo `2^32`.
-/

namespace Vts

/-- The per-resource lifecycle states (`ResourceImpl::State`). -/
inductive RState
  | initializing
  | downloading
  | downloaded
  | ready
  | errorDownload
  | errorLoad
  | finalizing
deriving DecidableEq, Repr, Fintype

/-- The three availability-test kinds
(`vtslibs::registry::BoundLayer::Availability::Type`). -/
inductive AvailType
  | negativeCode
  | negativeType
  | negativeSize
deriving DecidableEq, Repr

/-- An availability predicate attached to a resource (`availTest`). -/
structure Availability where
  type : AvailType
  codes : List Nat
  mime : String
  size : Nat
deriving DecidableEq, Repr

/-- The observable payload of a completed fetch (`FetchTask` result fields). -/
structure FetchResponse where
  code : Nat
  contentType : String
  contentSize : Nat
deriving DecidableEq, Repr

/-- `task->code` is one of the redirection status codes handled by the
switch in `MapImpl::fetchedFile`. -/
def isRedirectCode (c : Nat) : Bool :=
  c == 301 || c == 302 || c == 303 || c == 307 || c == 308

/-- Result of one invocation of `MapImpl::fetchedFile` that returns normally.
`writes` is the sequence of values assigned to `resource->state` during the
call (the resource enters the call in state `downloading`, which is asserted
by the code). -/
structure FetchOutcome where
  writes : List RState
  refetch : Bool
  redirectionsCount : Nat
  downloadsDecremented : Bool
  contentFreed : Bool
  blacklisted : Bool
  savedToCache : Bool
deriving DecidableEq, Repr

/-- An exception escaping `MapImpl::fetchedFile`; `writes` are the state
assignments performed before the throw. -/
structure FetchThrow where
  writes : List RState
  message : String
deriving DecidableEq, Repr

/-- The state a resource is left in by a (non-throwing) `fetchedFile` call:
the last write, or the entry state `downloading` when nothing was written. -/
def outcomeState (o : FetchOutcome) : RState :=
  o.writes.getLastD RState.downloading

/-- Common tail of `fetchedFile` after the redirection switch:
`resources.downloads--`, then either the error path (free the content,
blacklist the name) or `saveToCache` followed by `state = downloaded`. -/
def fetchedFileTail (w : List RState) (rc : Nat) : FetchOutcome :=
  if w.getLastD RState.downloading = RState.errorDownload then
    { writes := w, refetch := false, redirectionsCount := rc,
      downloadsDecremented := true, contentFreed := true,
      blacklisted := true, savedToCache := false }
  else
    { writes := w ++ [RState.downloaded], refetch := false,
      redirectionsCount := rc, downloadsDecremented := true,
      contentFreed := false, blacklisted := false, savedToCache := true }

/-- The redirection switch of `fetchedFile`: when the state is still
`downloading` and the code is a redirection code, `redirectionsCount++ > 5`
decides between another `fetch` (early return, slot kept) and a download
error; otherwise control falls through to the common tail. -/
def fetchedFileRest (w : List RState) (resp : FetchResponse) (rc : Nat) :
    FetchOutcome :=
  if w.getLastD RState.downloading = RState.downloading
      && isRedirectCode resp.code then
    if 5 < rc then
      fetchedFileTail (w ++ [RState.errorDownload]) (rc + 1)
    else
      { writes := w, refetch := true, redirectionsCount := rc + 1,
        downloadsDecremented := false, contentFreed := false,
        blacklisted := false, savedToCache := false }
  else
    fetchedFileTail w rc

/-- Shallow embedding of `MapImpl::fetchedFile`.  The resource enters in
state `downloading`.  First the status code is checked (`>= 400` or `0`
means `errorDownload`), then the availability predicate is evaluated
(note: the `negativeSize` case of the switch has no `break` and falls
through to `default`, which throws `std::invalid_argument`), then
redirections are handled, then the final bookkeeping runs. -/
def fetchedFile (availTest : Option Availability) (resp : FetchResponse)
    (rc : Nat) : Except FetchThrow FetchOutcome :=
  let w1 : List RState :=
    if 400 ≤ resp.code ∨ resp.code = 0 then [RState.errorDownload] else []
  match availTest with
  | none => .ok (fetchedFileRest w1 resp rc)
  | some t =>
    if w1.getLastD RState.downloading = RState.downloading then
      match t.type with
      | AvailType.negativeCode =>
          .ok (fetchedFileRest
            (w1 ++ if t.codes.contains resp.code then []
                   else [RState.errorDownload]) resp rc)
      | AvailType.negativeType =>
          .ok (fetchedFileRest
            (w1 ++ if t.mime = resp.contentType then [RState.errorDownload]
                   else []) resp rc)
      | AvailType.negativeSize =>
          .error ⟨w1 ++ (if resp.contentSize ≤ t.size
                         then [RState.errorDownload] else []),
                  "invalid availability test type"⟩
    else .ok (fetchedFileRest w1 resp rc)

/-- The state assignments performed by a `fetchedFile` call, whether it
returns or throws. -/
def fetchWrites : Except FetchThrow FetchOutcome → List RState
  | .ok o => o.writes
  | .error t => t.writes

/-- A chain of fetch completions for one resource: each response is handed
to `fetchedFile`; a refetch consumes the next response with the updated
`redirectionsCount`.  `none` when the chain is exhausted mid-redirect or an
exception escapes. -/
def runChain (availTest : Option Availability) :
    Nat → List FetchResponse → Option FetchOutcome
  | _, [] => none
  | rc, resp :: rest =>
    match fetchedFile availTest resp rc with
    | .error _ => none
    | .ok o =>
      if o.refetch then runChain availTest o.redirectionsCount rest
      else some o

/-- The state `loadResource` leaves a resource in: `ready` when
`resource->load` returns, `errorLoad` when it throws. -/
def loadResourceState (loadOk : Bool) : RState :=
  if loadOk then RState.ready else RState.errorLoad

/-- Static facts about the one resource popped by a `dataTick` call:
whether its name is blacklisted (`invalidUrl`), contains a scheme
(`"://"`), contains `".json"`, is present in the disk cache, whether
`resources.downloads < options.maxConcurrentDownloads`, and whether
decoding it would succeed. -/
structure TickCtx where
  blacklisted : Bool
  hasScheme : Bool
  isJson : Bool
  inDiskCache : Bool
  slotAvailable : Bool
  loadOk : Bool
deriving DecidableEq, Repr

/-- The sequence of values `MapImpl::dataTick` assigns to `r->state` for a
resource popped from the prepare queue in state `s`. -/
def dataTickWrites (c : TickCtx) (s : RState) : List RState :=
  if s = RState.downloaded then [loadResourceState c.loadOk]
  else if s = RState.initializing then
    if c.blacklisted then [RState.errorLoad]
    else
      RState.downloading ::
        (if !c.hasScheme then [loadResourceState c.loadOk]
         else if !c.isJson && c.inDiskCache then [loadResourceState c.loadOk]
         else if c.slotAvailable then []
         else [RState.initializing])
  else []

/-- The state after `MapImpl::touchResource`: `finalizing` resurrects to
`initializing`, every other state is left unchanged. -/
def touchState (s : RState) : RState :=
  if s = RState.finalizing then RState.initializing else s

/-- The state assignments performed by `MapImpl::touchResource`. -/
def touchWrites (s : RState) : List RState :=
  if s = RState.finalizing then [RState.initializing] else []

/-- `MapImpl::touchResource` inserts the resource into `prepareQueNew`
exactly when its (entry) state is `finalizing`, `initializing` or
`downloaded`. -/
def touchQueued (s : RState) : Bool :=
  s == RState.finalizing || s == RState.initializing || s == RState.downloaded

/-- The transition edges listed in the specification (§4.3). -/
def claimedEdge : RState → RState → Bool
  | RState.initializing, RState.downloading => true
  | RState.initializing, RState.downloaded => true
  | RState.initializing, RState.errorLoad => true
  | RState.downloading, RState.downloaded => true
  | RState.downloading, RState.errorDownload => true
  | RState.downloaded, RState.ready => true
  | RState.downloaded, RState.errorLoad => true
  | RState.ready, RState.finalizing => true
  | RState.errorDownload, RState.finalizing => true
  | RState.errorLoad, RState.finalizing => true
  | RState.finalizing, RState.initializing => true
  | _, _ => false

/-- The edges actually performed by the code: the claimed edges plus the
synchronous-load shortcuts `downloading → ready` / `downloading → errorLoad`
(internal-memory and disk-cache loads), the over-limit retry
`downloading → initializing`, and the eviction marks
`initializing → finalizing` / `downloaded → finalizing` (the eviction pass
excludes only `downloading` resources). -/
def amendedEdge (a b : RState) : Bool :=
  claimedEdge a b ||
    (match a, b with
     | RState.downloading, RState.ready => true
     | RState.downloading, RState.errorLoad => true
     | RState.downloading, RState.initializing => true
     | RState.initializing, RState.finalizing => true
     | RState.downloaded, RState.finalizing => true
     | _, _ => false)

/-- Every consecutive pair of a state sequence is an `edge`. -/
def chainOk (edge : RState → RState → Bool) : List RState → Bool
  | [] => true
  | [_] => true
  | a :: b :: t => edge a b && chainOk edge (b :: t)

/-- A cached resource as seen by the eviction pass of
`MapImpl::dataRenderTick`: its map key, `lastAccessTick`, the two memory
costs, the `shared_ptr` use count and the lifecycle state. -/
structure CRes where
  name : String
  lastAccessTick : Nat
  ramMemoryCost : Nat
  gpuMemoryCost : Nat
  useCount : Nat
  state : RState
deriving DecidableEq, Repr

/-- Reduction modulo `2^32` (the memory accounting uses `uint32`). -/
def u32 (n : Nat) : Nat := n % 4294967296

/-- `uint32` subtraction `a - b` for `a < 2^32`. -/
def u32sub (a b : Nat) : Nat := u32 (a + 4294967296 - u32 b)

/-- `memRamUse`: the running `uint32` sum of `ramMemoryCost`. -/
def sumRam (rs : List CRes) : Nat :=
  rs.foldl (fun m r => u32 (m + r.ramMemoryCost)) 0

/-- `memGpuUse`: the running `uint32` sum of `gpuMemoryCost`. -/
def sumGpu (rs : List CRes) : Nat :=
  rs.foldl (fun m r => u32 (m + r.gpuMemoryCost)) 0

/-- The total cost `gpuMemoryCost + ramMemoryCost` of one resource, as the
`uint32` sum computed by the eviction comparator and walk. -/
def resCost (r : CRes) : Nat := u32 (r.gpuMemoryCost + r.ramMemoryCost)

/-- The candidate filter of the eviction pass: not accessed for more than
100 ticks, referenced only by the cache (`use_count() == 1`), and not
mid-download. -/
def isCandidate (frame : Nat) (r : CRes) : Bool :=
  decide (r.lastAccessTick + 100 < frame) && r.useCount == 1
    && !(r.state == RState.downloading)

/-- The strict comparator passed to `std::sort` by the eviction pass. -/
def evictCmp (a b : CRes) : Bool :=
  if a.lastAccessTick == b.lastAccessTick then decide (resCost b < resCost a)
  else decide (a.lastAccessTick < b.lastAccessTick)

/-- The non-strict order guaranteed between consecutive elements of a
sequence sorted by `std::sort` with comparator `evictCmp`. -/
def evictLe (a b : CRes) : Bool := !evictCmp b a

/-- The candidate list of the eviction pass, sorted by
`(lastAccessTick ascending, total cost descending)`. -/
def sortedCandidates (frame : Nat) (rs : List CRes) : List CRes :=
  (rs.filter (isCandidate frame)).mergeSort evictLe

/-- The walk over the sorted candidates: stop once `memUse` is within
budget, otherwise subtract the candidate's cost and either mark it
(`false`, state not yet `finalizing`) or erase it (`true`, second
encounter). -/
def evictWalk (budget : Nat) : Nat → List CRes → List (CRes × Bool)
  | _, [] => []
  | memUse, r :: rest =>
    if memUse ≤ budget then []
    else
      (r, r.state == RState.finalizing) ::
        evictWalk budget (u32sub memUse (r.gpuMemoryCost + r.ramMemoryCost))
          rest

/-- `memUse` after the walk has subtracted the costs of the resources in
`l`. -/
def memAfter (memUse : Nat) (l : List CRes) : Nat :=
  l.foldl (fun m r => u32sub m (r.gpuMemoryCost + r.ramMemoryCost)) memUse

/-- The actions (mark / erase) performed by the eviction block of
`MapImpl::dataRenderTick` on the resource map `rs` (in map-iteration
order) at frame index `frame` with memory budget
`options.maxResourcesMemory = budget`. -/
def dataRenderTickEvict (frame budget : Nat) (rs : List CRes) :
    List (CRes × Bool) :=
  let memUse := u32 (sumRam rs + sumGpu rs)
  if budget < memUse then evictWalk budget memUse (sortedCandidates frame rs)
  else []

/-- Apply the recorded eviction actions to the resource map: erased
resources disappear, marked resources move to `finalizing`. -/
def applyEvict (acts : List (CRes × Bool)) (rs : List CRes) : List CRes :=
  rs.filterMap fun r =>
    match acts.find? (fun a => a.1.name == r.name) with
    | some (_, true) => none
    | some (_, false) => some { r with state := RState.finalizing }
    | none => some r

/-- The resource map after the eviction block of
`MapImpl::dataRenderTick`. -/
def dataRenderTick (frame budget : Nat) (rs : List CRes) : List CRes :=
  applyEvict (dataRenderTickEvict frame budget rs) rs

/-- `MapImpl::touchResource`: refresh `lastAccessTick` to the current frame
index and resurrect a `finalizing` resource. -/
def touchResource (frame : Nat) (r : CRes) : CRes :=
  { r with lastAccessTick := frame, state := touchState r.state }

/-- A resource of the concurrency model: the static name facts, the
availability test and redirection counter of its fetch task, its state, and
whether a network fetch for it is in flight. -/
structure NRes where
  blacklisted : Bool
  hasScheme : Bool
  isJson : Bool
  inDiskCache : Bool
  loadOk : Bool
  availTest : Option Availability
  redirectionsCount : Nat
  state : RState
  inflight : Bool
deriving DecidableEq, Repr

/-- Net effect of one `dataTick` call on the popped resource, given whether
`resources.downloads < options.maxConcurrentDownloads`; the boolean reports
whether `fetcher->fetch` was called (and `downloads` incremented). -/
def dataTickRes (slotAvailable : Bool) (r : NRes) : NRes × Bool :=
  if r.state = RState.downloaded then
    ({ r with state := loadResourceState r.loadOk }, false)
  else if r.state = RState.initializing then
    if r.blacklisted then ({ r with state := RState.errorLoad }, false)
    else if !r.hasScheme then
      ({ r with state := loadResourceState r.loadOk }, false)
    else if !r.isJson && r.inDiskCache then
      ({ r with state := loadResourceState r.loadOk }, false)
    else if slotAvailable then
      ({ r with state := RState.downloading, inflight := true }, true)
    else (r, false)
  else (r, false)

/-- Global state of the concurrency model: the configured download limit,
the `resources.downloads` counter, the resources, and whether an exception
has escaped a fetch callback (after which nothing runs any more). -/
structure Sys where
  maxConcurrentDownloads : Nat
  downloads : Nat
  res : List NRes
  crashed : Bool

/-- The number of resources with an in-flight network download. -/
def countInflight (l : List NRes) : Nat :=
  (l.map fun r => if r.inflight then 1 else 0).sum

/-- One `dataTick` call popping the resource `r` (decomposition
`pre ++ r :: post` of the resource list). -/
def applyTick (s : Sys) (pre : List NRes) (r : NRes) (post : List NRes) :
    Sys :=
  if s.crashed then s
  else
    let p := dataTickRes (decide (s.downloads < s.maxConcurrentDownloads)) r
    { s with res := pre ++ p.1 :: post,
             downloads := s.downloads + if p.2 then 1 else 0 }

/-- The state a throwing `fetchedFile` call leaves the resource in. -/
def throwState (t : FetchThrow) : RState :=
  t.writes.getLastD RState.downloading

/-- One completion callback `MapImpl::fetchedFile` for resource `r`
receiving response `resp`: a refetch keeps the slot, a normal completion
frees it (`downloads--`), a throw crashes the system with the slot leaked. -/
def applyFetched (s : Sys) (pre : List NRes) (r : NRes) (post : List NRes)
    (resp : FetchResponse) : Sys :=
  if s.crashed then s
  else if r.state = RState.downloading ∧ r.inflight = true then
    match fetchedFile r.availTest resp r.redirectionsCount with
    | .ok o =>
      if o.refetch then
        { s with res := pre ++
            { r with redirectionsCount := o.redirectionsCount } :: post }
      else
        { s with
            res := pre ++
              { r with state := outcomeState o, inflight := false,
                       redirectionsCount := o.redirectionsCount } :: post,
            downloads := s.downloads - 1 }
    | .error t =>
      { s with res := pre ++ { r with state := throwState t } :: post,
               crashed := true }
  else s

/-- One `touchResource` call on resource `r`. -/
def applyTouched (s : Sys) (pre : List NRes) (r : NRes) (post : List NRes) :
    Sys :=
  if s.crashed then s
  else { s with res := pre ++ { r with state := touchState r.state } :: post }

/-- The operations of the resource pipeline, as a step relation: `dataTick`
on one popped resource, a fetch completion, a touch, an eviction mark
(possible only for resources not mid-download), an eviction erase (second
encounter, state already `finalizing`), and creation of a fresh resource
(`getMapResource` inserting a new entry, which starts `initializing`). -/
inductive Step : Sys → Sys → Prop
  | tick (s : Sys) (pre : List NRes) (r : NRes) (post : List NRes)
      (h : s.res = pre ++ r :: post) : Step s (applyTick s pre r post)
  | fetched (s : Sys) (pre : List NRes) (r : NRes) (post : List NRes)
      (resp : FetchResponse) (h : s.res = pre ++ r :: post) :
      Step s (applyFetched s pre r post resp)
  | touched (s : Sys) (pre : List NRes) (r : NRes) (post : List NRes)
      (h : s.res = pre ++ r :: post) : Step s (applyTouched s pre r post)
  | evictMark (s : Sys) (pre : List NRes) (r : NRes) (post : List NRes)
      (h : s.res = pre ++ r :: post) (hc : s.crashed = false)
      (hs : r.state ≠ RState.downloading) :
      Step s { s with res := pre ++ { r with state := RState.finalizing } :: post }
  | evictErase (s : Sys) (pre : List NRes) (r : NRes) (post : List NRes)
      (h : s.res = pre ++ r :: post) (hc : s.crashed = false)
      (hs : r.state = RState.finalizing) :
      Step s { s with res := pre ++ post }
  | create (s : Sys) (nr : NRes) (hc : s.crashed = false)
      (hs : nr.state = RState.initializing) (hi : nr.inflight = false) :
      Step s { s with res := s.res ++ [nr] }

/-- States reachable from an empty resource cache. -/
inductive Reachable : Sys → Prop
  | init (maxC : Nat) : Reachable ⟨maxC, 0, [], false⟩
  | step {s t : Sys} : Reachable s → Step s t → Reachable t

/-- `dataTick` applied once to each resource in order, threading the
`downloads` counter (the queue pops each requested resource once). -/
def tickSeq (maxC : Nat) : Nat → List NRes → List NRes
  | _, [] => []
  | downloads, r :: rest =>
    let p := dataTickRes (decide (downloads < maxC)) r
    p.1 :: tickSeq maxC (downloads + if p.2 then 1 else 0) rest

/-- A freshly requested remote resource (scheme in the name, `.json`, so
neither internal memory nor the disk cache serves it). -/
def remoteRes : NRes :=
  ⟨false, true, true, false, true, none, 0, RState.initializing, false⟩

/-- How many resources of `l` are in state `s`. -/
def countState (l : List NRes) (s : RState) : Nat :=
  (l.filter fun r => r.state == s).length

/-- What the hierarchical traversal inspects on one child of a traverse
node: whether `t->meta` is resolved, whether the node has a surface,
whether its render list is empty, and whether all its draws are ready. -/
structure TravChild where
  hasMeta : Bool
  hasSurface : Bool
  rendersEmpty : Bool
  ready : Bool
deriving DecidableEq, Repr

/-- A traverse node with resolved metadata, as inspected by the
hierarchical branch of `MapImpl::traverse`: the outcomes of
`visibilityTest` and `coarsenessTest`, and its children. -/
structure TravNode where
  visible : Bool
  coarse : Bool
  childs : List TravChild
deriving DecidableEq, Repr

/-- The observable outcome of one `traverse` call: whether `renderNode` was
invoked on this node, and the `loadOnly` flag attached to each enqueued
child. -/
structure TraverseResult where
  rendered : Bool
  enqueued : List Bool
deriving DecidableEq, Repr

/-- The per-child readiness check of the hierarchical traversal: the child
makes `ok` false when it lacks metadata, or has a surface with an empty
render list or draws that are not all ready. -/
def childNotReady (t : TravChild) : Bool :=
  !t.hasMeta || (t.hasSurface && (t.rendersEmpty || !t.ready))

/-- The hierarchical branch of `MapImpl::traverse` for a node with resolved
metadata: visibility cull, coarseness test, the child readiness check with
fallback render, child enqueueing, and the final render of childless
nodes. -/
def traverseHier (trav : TravNode) (loadOnly : Bool) : TraverseResult :=
  if !trav.visible then ⟨false, []⟩
  else if trav.coarse then ⟨!loadOnly, []⟩
  else
    let bad := trav.childs.any childNotReady
    let rendered1 := !loadOnly && bad
    let loadOnly2 := loadOnly || bad
    if !trav.childs.isEmpty then
      ⟨rendered1, trav.childs.map fun _ => loadOnly2⟩
    else ⟨rendered1 || !loadOnly2, []⟩

/-- A 3-component vector with exact coordinates. -/
structure Vec3 where
  x : Int
  y : Int
  z : Int
deriving DecidableEq, Repr

/-- An opaque draw task, carrying its world-space center. -/
structure DrawSurfaceTask where
  center : Vec3
deriving DecidableEq, Repr

/-- Squared distance from the eye to a task's center
(`dot(va, va)` for `va = center - e`). -/
def dist2 (e : Vec3) (t : DrawSurfaceTask) : Int :=
  (t.center.x - e.x) ^ 2 + (t.center.y - e.y) ^ 2 + (t.center.z - e.z) ^ 2

/-- The strict comparator passed to `std::sort` by
`CameraImpl::sortOpaqueFrontToBack`. -/
def opaqueCmp (e : Vec3) (a b : DrawSurfaceTask) : Bool :=
  decide (dist2 e a < dist2 e b)

/-- The non-strict order guaranteed between consecutive elements of a
sequence sorted by `std::sort` with comparator `opaqueCmp`. -/
def opaqueLe (e : Vec3) (a b : DrawSurfaceTask) : Bool :=
  !opaqueCmp e b a

/-- `CameraImpl::sortOpaqueFrontToBack`: sort the accumulated opaque draw
tasks by squared distance from the camera eye. -/
def sortOpaqueFrontToBack (e : Vec3) (tasks : List DrawSurfaceTask) :
    List DrawSurfaceTask :=
  tasks.mergeSort (opaqueLe e)

/-- The opaque draw list `CameraImpl::renderUpdate` hands to the renderer:
whatever the per-layer traversals accumulated, passed through
`sortOpaqueFrontToBack` as the last step before handoff. -/
def renderUpdateOpaque (e : Vec3) (accumulated : List DrawSurfaceTask) :
    List DrawSurfaceTask :=
  sortOpaqueFrontToBack e accumulated

/-- The inductive invariant of the concurrency model: the `downloads`
counter equals the number of in-flight fetches, stays within the
configured limit, and (before any crash) only `downloading` resources have
a fetch in flight. -/
def Inv (s : Sys) : Prop :=
  s.downloads = countInflight s.res ∧
  s.downloads ≤ s.maxConcurrentDownloads ∧
  (s.crashed = false →
    ∀ r ∈ s.res, r.inflight = true → r.state = RState.downloading)

/-- A redirection status code is neither `0` nor `≥ 400`. -/
theorem isRedirectCode_lt (c : Nat) (h : isRedirectCode c = true) :
    ¬(400 ≤ c ∨ c = 0) := by
  simp only [isRedirectCode, Bool.or_eq_true, beq_iff_eq] at h
  omega

/-- A redirect response at hop count `rc ≤ 5` (no availability test)
issues another fetch with the count incremented. -/
theorem fetchedFile_refetch (resp : FetchResponse) (rc : Nat)
    (hr : isRedirectCode resp.code = true) (hrc : rc ≤ 5) :
    fetchedFile none resp rc
      = .ok ⟨[], true, rc + 1, false, false, false, false⟩ := by
  have hc := isRedirectCode_lt resp.code hr
  simp [fetchedFile, fetchedFileRest, hc, hr, Nat.not_lt_of_le hrc]

/-- A redirect response at hop count `rc > 5` ends the download in
`errorDownload` (for any availability test that does not throw). -/
theorem fetchedFile_over_limit (availTest : Option Availability)
    (resp : FetchResponse) (rc : Nat) (o : FetchOutcome)
    (hr : isRedirectCode resp.code = true) (hrc : 5 < rc)
    (ho : fetchedFile availTest resp rc = .ok o) :
    outcomeState o = RState.errorDownload ∧ o.refetch = false := by
  have hc := isRedirectCode_lt resp.code hr
  cases availTest with
  | none =>
    simp [fetchedFile, fetchedFileRest, fetchedFileTail, hc, hr, hrc] at ho
    subst ho
    simp [outcomeState]
  | some t =>
    simp only [fetchedFile, hc, if_false] at ho
    cases htype : t.type <;> rw [htype] at ho
    · rcases Except.ok.inj ho with rfl
      split <;>
        simp [fetchedFileRest, fetchedFileTail, hc, hr, hrc, outcomeState]
    · rcases Except.ok.inj ho with rfl
      split <;>
        simp [fetchedFileRest, fetchedFileTail, hc, hr, hrc, outcomeState]
    · exact absurd ho (by simp)

/-- A redirect response with no availability test at hop count `rc > 5`
yields the explicit error outcome. -/
theorem fetchedFile_over_none (resp : FetchResponse) (rc : Nat)
    (hr : isRedirectCode resp.code = true) (hrc : 5 < rc) :
    fetchedFile none resp rc
      = .ok ⟨[RState.errorDownload], false, rc + 1, true, true, true, false⟩ := by
  have hc := isRedirectCode_lt resp.code hr
  simp [fetchedFile, fetchedFileRest, fetchedFileTail, hc, hr, hrc]

/-- The final bookkeeping of `fetchedFile`: an `errorDownload` exit frees
the content, blacklists the name and writes nothing to the disk cache;
`saveToCache` runs exactly on the path that ends in `downloaded`. -/
theorem fetchedFileRest_c10 (w : List RState) (resp : FetchResponse)
    (rc : Nat) :
    (outcomeState (fetchedFileRest w resp rc) = RState.errorDownload →
      (fetchedFileRest w resp rc).contentFreed = true ∧
      (fetchedFileRest w resp rc).blacklisted = true ∧
      (fetchedFileRest w resp rc).savedToCache = false) ∧
    ((fetchedFileRest w resp rc).savedToCache = true →
      outcomeState (fetchedFileRest w resp rc) = RState.downloaded ∧
      (fetchedFileRest w resp rc).refetch = false) := by
  unfold fetchedFileRest fetchedFileTail outcomeState
  split
  · split
    · split <;> simp_all [List.getLastD_concat]
    · simp_all
  · split <;> simp_all [List.getLastD_concat]

/-- A refetch is issued only on a redirect code with the hop counter at
most 5, and it increments the counter. -/
theorem fetchedFileRest_refetch (w : List RState) (resp : FetchResponse)
    (rc : Nat) (h : (fetchedFileRest w resp rc).refetch = true) :
    isRedirectCode resp.code = true ∧ rc ≤ 5 ∧
    (fetchedFileRest w resp rc).redirectionsCount = rc + 1 := by
  unfold fetchedFileRest fetchedFileTail at h ⊢
  split at h
  · split at h
    · split at h <;> simp_all
    · simp_all
      split <;> rfl
  · split at h <;> simp_all

/-- Every normal return of `fetchedFile` is an outcome of the shared
redirect-and-bookkeeping tail. -/
theorem fetchedFile_ok_shape (availTest : Option Availability)
    (resp : FetchResponse) (rc : Nat) (o : FetchOutcome)
    (ho : fetchedFile availTest resp rc = .ok o) :
    ∃ w, o = fetchedFileRest w resp rc := by
  unfold fetchedFile at ho
  cases availTest with
  | none => exact ⟨_, (Except.ok.inj ho).symm⟩
  | some t =>
    obtain ⟨ty, codes, mime, size⟩ := t
    cases ty
    all_goals repeat' split at ho
    all_goals
      first
        | exact ⟨_, (Except.ok.inj ho).symm⟩
        | exact absurd ho (by simp)

/-- A chain of redirect responses whose length brings the hop counter from
`rc` to 7 ends in the explicit error outcome. -/
theorem runChain_redirects (rs : List FetchResponse) (rc : Nat)
    (hne : rs ≠ []) (hall : ∀ r ∈ rs, isRedirectCode r.code = true)
    (hlen : rc + rs.length = 7) :
    runChain none rc rs
      = some ⟨[RState.errorDownload], false, 7, true, true, true, false⟩ := by
  induction rs generalizing rc with
  | nil => exact absurd rfl hne
  | cons r rest ih =>
    by_cases h5 : 5 < rc
    · have hr0 : rest = [] := by
        cases rest with
        | nil => rfl
        | cons x t => exfalso; simp at hlen; omega
      subst hr0
      simp at hlen
      have hover := fetchedFile_over_none r rc (hall r (by simp)) h5
      simp [runChain, hover]
      omega
    · have hstep := fetchedFile_refetch r rc (hall r (by simp)) (by omega)
      have hne2 : rest ≠ [] := by
        cases rest with
        | nil => exfalso; simp at hlen; omega
        | cons x t => simp
      have hrec := ih (rc + 1) hne2 (fun x hx => hall x (by simp [hx]))
        (by simp at hlen ⊢; omega)
      simp [runChain, hstep, hrec]

/-- Claim C2.  The code diverges from the claim at a successful response:
with a `negativeCode {404}` predicate and HTTP code 200 (which is not in
the code set, so the claim demands acceptance), `fetchedFile` marks the
resource `errorDownload` and blacklists it — the membership test is
inverted (`== end()`); and with a `negativeSize` predicate whose threshold
is not met (claim demands acceptance), the switch falls through to
`default` and throws `std::invalid_argument` instead of completing. -/
theorem claim_C2_availability_divergence :
    (fetchedFile (some ⟨AvailType.negativeCode, [404], "text/plain", 0⟩)
        ⟨200, "image/jpeg", 100⟩ 0).toOption.map
        (fun o => (outcomeState o, o.blacklisted, o.savedToCache))
      = some (RState.errorDownload, true, false) ∧
    (fetchedFile (some ⟨AvailType.negativeSize, [], "text/plain", 10⟩)
        ⟨200, "image/jpeg", 100⟩ 0).toOption = none := by decide

/-- Claim C3 counterexample: a redirect chain of 6 hops (6 redirect
responses, then a success) is followed to completion and ends in
`downloaded`, not in `errorDownload` as the claim states —
`redirectionsCount++ > 5` uses the pre-increment value, so the 6th hop is
still followed. -/
theorem claim_C3_counterexample :
    (runChain none 0 ((List.replicate 6 ⟨301, "", 0⟩) ++ [⟨200, "", 1⟩])).map
        outcomeState = some RState.downloaded ∧
    RState.downloaded ≠ RState.errorDownload := by decide

/-- Claim C3 (amended): redirect responses are followed inline at most 6
times — a refetch happens only for a redirect code with the hop counter at
most 5 and increments the counter; a redirect response with the counter
above 5 ends the resource in `errorDownload` without a refetch; and a
chain of 7 redirect responses ends with the resource in `errorDownload`. -/
theorem claim_C3_redirects_amended :
    (∀ (availTest : Option Availability) (resp : FetchResponse) (rc : Nat)
        (o : FetchOutcome), fetchedFile availTest resp rc = .ok o →
        o.refetch = true →
        isRedirectCode resp.code = true ∧ rc ≤ 5 ∧
          o.redirectionsCount = rc + 1) ∧
    (∀ (availTest : Option Availability) (resp : FetchResponse) (rc : Nat)
        (o : FetchOutcome), fetchedFile availTest resp rc = .ok o →
        isRedirectCode resp.code = true → 5 < rc →
        outcomeState o = RState.errorDownload ∧ o.refetch = false) ∧
    (∀ rs : List FetchResponse, rs.length = 7 →
        (∀ r ∈ rs, isRedirectCode r.code = true) →
        ∃ o, runChain none 0 rs = some o ∧
          outcomeState o = RState.errorDownload) := by
  refine ⟨?_, ?_, ?_⟩
  · intro availTest resp rc o ho hr
    obtain ⟨w, rfl⟩ := fetchedFile_ok_shape availTest resp rc o ho
    exact fetchedFileRest_refetch w resp rc hr
  · intro availTest resp rc o ho hr h5
    exact fetchedFile_over_limit availTest resp rc o hr h5 ho
  · intro rs hlen hall
    refine ⟨_, runChain_redirects rs 0 ?_ hall (by omega), by decide⟩
    intro h
    subst h
    simp at hlen

/-- Witness for the amended claim C3, at a chain of seven 301 responses. -/
theorem claim_C3_redirects_amended_witness :
    (List.replicate 7 (⟨301, "", 0⟩ : FetchResponse)).length = 7 ∧
    (∃ o, runChain none 0 (List.replicate 7 ⟨301, "", 0⟩) = some o ∧
      outcomeState o = RState.errorDownload) := by
  have h := claim_C3_redirects_amended
  exact ⟨by decide, h.2.2 (List.replicate 7 ⟨301, "", 0⟩) (by decide) (by decide)⟩

/-- Claim C10: whenever a fetch completes (without throwing) with the
resource in `errorDownload`, the content buffer is freed, the name goes to
the staging blacklist, and nothing is written to the disk cache; and
`saveToCache` runs only on completions that end in `downloaded`. -/
theorem claim_C10_error_path (availTest : Option Availability)
    (resp : FetchResponse) (rc : Nat) (o : FetchOutcome)
    (ho : fetchedFile availTest resp rc = .ok o) :
    (outcomeState o = RState.errorDownload →
      o.contentFreed = true ∧ o.blacklisted = true ∧ o.savedToCache = false) ∧
    (o.savedToCache = true →
      outcomeState o = RState.downloaded ∧ o.refetch = false) := by
  obtain ⟨w, rfl⟩ := fetchedFile_ok_shape availTest resp rc o ho
  exact fetchedFileRest_c10 w resp rc

/-- Witness for claim C10, at a plain 404 completion. -/
theorem claim_C10_error_path_witness :
    fetchedFile none ⟨404, "text/plain", 0⟩ 0
      = .ok ⟨[RState.errorDownload], false, 0, true, true, true, false⟩ ∧
    ((outcomeState ⟨[RState.errorDownload], false, 0, true, true, true, false⟩
        = RState.errorDownload →
      (⟨[RState.errorDownload], false, 0, true, true, true, false⟩
          : FetchOutcome).contentFreed = true ∧
      FetchOutcome.blacklisted
        ⟨[RState.errorDownload], false, 0, true, true, true, false⟩ = true ∧
      FetchOutcome.savedToCache
        ⟨[RState.errorDownload], false, 0, true, true, true, false⟩ = false) ∧
    (FetchOutcome.savedToCache
        ⟨[RState.errorDownload], false, 0, true, true, true, false⟩ = true →
      outcomeState ⟨[RState.errorDownload], false, 0, true, true, true, false⟩
          = RState.downloaded ∧
      FetchOutcome.refetch
        ⟨[RState.errorDownload], false, 0, true, true, true, false⟩ = false)) :=
  ⟨by rfl, claim_C10_error_path none ⟨404, "text/plain", 0⟩ 0 _ (by rfl)⟩

/-- Everything the eviction walk touches comes from its candidate list, and
it records an erase (rather than a mark) exactly for resources already in
state `finalizing`. -/
theorem evictWalk_mem (budget : Nat) (memUse : Nat) (l : List CRes)
    (p : CRes × Bool) (hp : p ∈ evictWalk budget memUse l) :
    p.1 ∈ l ∧ (p.2 = true ↔ p.1.state = RState.finalizing) := by
  induction l generalizing memUse with
  | nil => simp [evictWalk] at hp
  | cons r rest ih =>
    unfold evictWalk at hp
    split at hp
    · simp at hp
    · rcases List.mem_cons.1 hp with rfl | hmem
      · exact ⟨List.mem_cons_self r rest, by simp⟩
      · obtain ⟨h1, h2⟩ := ih _ hmem
        exact ⟨List.mem_cons_of_mem r h1, h2⟩

/-- Membership in the sorted candidate list means membership in the map
and passing the candidate filter. -/
theorem mem_sortedCandidates (frame : Nat) (rs : List CRes) (x : CRes)
    (hx : x ∈ sortedCandidates frame rs) :
    x ∈ rs ∧ isCandidate frame x = true := by
  have hperm := List.mergeSort_perm (rs.filter (isCandidate frame)) evictLe
  have := hperm.mem_iff.1 hx
  exact List.mem_filter.1 this

/-- Everything the eviction pass touches is a candidate, and it is erased
exactly when it is already `finalizing`. -/
theorem mem_dataRenderTickEvict (frame budget : Nat) (rs : List CRes)
    (p : CRes × Bool) (hp : p ∈ dataRenderTickEvict frame budget rs) :
    p.1 ∈ rs ∧ isCandidate frame p.1 = true ∧
    (p.2 = true ↔ p.1.state = RState.finalizing) := by
  simp only [dataRenderTickEvict] at hp
  split at hp
  · obtain ⟨h1, h2⟩ := evictWalk_mem _ _ _ p hp
    obtain ⟨h3, h4⟩ := mem_sortedCandidates frame rs p.1 h1
    exact ⟨h3, h4, h2⟩
  · simp at hp

/-- Entering the redirect-and-bookkeeping tail with no prior write or a
single `errorDownload` write, the tail itself contributes at most one
further state write. -/
theorem fetchedFileRest_writes_cases (w : List RState) (resp : FetchResponse)
    (rc : Nat) (hw : w = [] ∨ w = [RState.errorDownload]) :
    (fetchedFileRest w resp rc).writes = [] ∨
    (fetchedFileRest w resp rc).writes = [RState.errorDownload] ∨
    (fetchedFileRest w resp rc).writes = [RState.downloaded] := by
  rcases hw with rfl | rfl <;>
    unfold fetchedFileRest fetchedFileTail <;>
    repeat' split <;>
    simp_all

/-- The writes of the redirect-and-bookkeeping tail follow the amended
edge set. -/
theorem chainOk_fetchedFileRest (w : List RState) (resp : FetchResponse)
    (rc : Nat) (hw : w = [] ∨ w = [RState.errorDownload]) :
    chainOk amendedEdge
      (RState.downloading :: (fetchedFileRest w resp rc).writes) = true := by
  rcases fetchedFileRest_writes_cases w resp rc hw with h | h | h <;>
    rw [h] <;> decide

/-- Claim C1 counterexample: `dataTick` on an initializing resource whose
name has no scheme (internal memory) writes `downloading` and then `ready`
directly — the transition `downloading → ready` skips `downloaded` and is
not among the claimed edges. -/
theorem claim_C1_counterexample :
    dataTickWrites ⟨false, false, false, false, true, true⟩ RState.initializing
      = [RState.downloading, RState.ready] ∧
    claimedEdge RState.downloading RState.ready = false ∧
    chainOk claimedEdge (RState.initializing ::
      dataTickWrites ⟨false, false, false, false, true, true⟩
        RState.initializing) = false := by decide

/-- Claim C1 (amended): every state write performed by `dataTick`
(including its synchronous `loadResource` calls), `fetchedFile`,
`touchResource` and the eviction pass follows the claimed edge set
extended with `downloading → ready`, `downloading → errorLoad`,
`downloading → initializing`, `initializing → finalizing` and
`downloaded → finalizing`. -/
theorem claim_C1_transitions_amended :
    (∀ (b1 b2 b3 b4 b5 b6 : Bool) (s : RState),
      chainOk amendedEdge
        (s :: dataTickWrites ⟨b1, b2, b3, b4, b5, b6⟩ s) = true) ∧
    (∀ (availTest : Option Availability) (resp : FetchResponse) (rc : Nat),
      chainOk amendedEdge
        (RState.downloading :: fetchWrites (fetchedFile availTest resp rc))
        = true) ∧
    (∀ s : RState, chainOk amendedEdge (s :: touchWrites s) = true) ∧
    (∀ (frame budget : Nat) (rs : List CRes),
      (dataRenderTickEvict frame budget rs).all
        (fun p => p.2 || amendedEdge p.1.state RState.finalizing) = true) := by
  refine ⟨by decide, ?_, by decide, ?_⟩
  · intro availTest resp rc
    unfold fetchedFile
    cases availTest with
    | none =>
      dsimp only [fetchWrites]
      apply chainOk_fetchedFileRest
      split <;> simp
    | some t =>
      obtain ⟨ty, codes, mime, size⟩ := t
      cases ty
      · by_cases hC : 400 ≤ resp.code ∨ resp.code = 0
        · simp only [hC]
          simp [fetchWrites]
          exact chainOk_fetchedFileRest _ resp rc (Or.inr rfl)
        · simp only [hC]
          simp [fetchWrites]
          apply chainOk_fetchedFileRest
          split <;> simp
      · by_cases hC : 400 ≤ resp.code ∨ resp.code = 0
        · simp only [hC]
          simp [fetchWrites]
          exact chainOk_fetchedFileRest _ resp rc (Or.inr rfl)
        · simp only [hC]
          simp [fetchWrites]
          apply chainOk_fetchedFileRest
          split <;> simp
      · by_cases hC : 400 ≤ resp.code ∨ resp.code = 0
        · simp only [hC]
          simp [fetchWrites]
          exact chainOk_fetchedFileRest _ resp rc (Or.inr rfl)
        · simp only [hC]
          simp [fetchWrites]
          split <;> decide
  · intro frame budget rs
    rw [List.all_eq_true]
    intro p hp
    obtain ⟨hmem, hcand, hiff⟩ := mem_dataRenderTickEvict frame budget rs p hp
    rcases hb : p.2 with _ | _
    · have hnf : p.1.state ≠ RState.finalizing := by
        intro h
        exact absurd (hiff.2 h) (by simp [hb])
      have hnd : p.1.state ≠ RState.downloading := by
        intro h
        simp [isCandidate, h] at hcand
      simp only [Bool.false_or]
      revert hnf hnd
      cases p.1.state <;> decide
    · simp

/-- The eviction walk processes a leading segment of the sorted candidate
list in order. -/
theorem evictWalk_take (budget : Nat) (memUse : Nat) (l : List CRes) :
    (evictWalk budget memUse l).map Prod.fst
      = l.take (evictWalk budget memUse l).length := by
  induction l generalizing memUse with
  | nil => simp [evictWalk]
  | cons r rest ih =>
    unfold evictWalk
    split
    · simp
    · simp [ih]

/-- The eviction walk stops only when the candidates are exhausted or the
accounted memory use is back within budget. -/
theorem evictWalk_stop (budget : Nat) (memUse : Nat) (l : List CRes) :
    (evictWalk budget memUse l).length = l.length ∨
    memAfter memUse (l.take (evictWalk budget memUse l).length) ≤ budget := by
  induction l generalizing memUse with
  | nil => left; simp [evictWalk]
  | cons r rest ih =>
    unfold evictWalk
    split
    · right
      simpa [memAfter] using by assumption
    · rcases ih (u32sub memUse (r.gpuMemoryCost + r.ramMemoryCost)) with h | h
      · left
        simp [h]
      · right
        simpa [memAfter] using h

/-- Before each processed candidate the accounted memory use was still
over budget: the walk stops as soon as possible. -/
theorem evictWalk_min (budget : Nat) (memUse : Nat) (l : List CRes)
    (j : Nat) (hj : j < (evictWalk budget memUse l).length) :
    budget < memAfter memUse (l.take j) := by
  induction l generalizing memUse j with
  | nil => simp [evictWalk] at hj
  | cons r rest ih =>
    unfold evictWalk at hj
    split at hj
    · simp at hj
    · next hc =>
      cases j with
      | zero => simpa [memAfter] using by omega
      | succ k =>
        simp only [List.length_cons, Nat.succ_lt_succ_iff] at hj
        have := ih (u32sub memUse (r.gpuMemoryCost + r.ramMemoryCost)) k hj
        simpa [memAfter] using this

/-- The sortedness guarantee of the eviction comparator, spelled out:
`lastAccessTick` ascending with total cost descending as tie-break. -/
theorem evictLe_iff (a b : CRes) :
    evictLe a b = true ↔
      (a.lastAccessTick < b.lastAccessTick ∨
        (a.lastAccessTick = b.lastAccessTick ∧ resCost b ≤ resCost a)) := by
  unfold evictLe evictCmp
  split <;> rename_i h
  · simp only [beq_iff_eq] at h
    simp [h]
  · simp only [beq_iff_eq] at h
    simp
    omega

/-- The eviction order is total. -/
theorem evictLe_total (a b : CRes) : (evictLe a b || evictLe b a) = true := by
  rcases Nat.lt_trichotomy a.lastAccessTick b.lastAccessTick with h | h | h
  · simp [evictLe_iff, h]
  · rcases Nat.le_total (resCost b) (resCost a) with hc | hc <;>
      simp [evictLe_iff, h, hc]
  · simp [evictLe_iff, h]

/-- The eviction order is transitive. -/
theorem evictLe_trans (a b c : CRes) (h1 : evictLe a b = true)
    (h2 : evictLe b c = true) : evictLe a c = true := by
  rw [evictLe_iff] at h1 h2 ⊢
  rcases h1 with h1 | ⟨h1, h1c⟩ <;> rcases h2 with h2 | ⟨h2, h2c⟩
  · left; omega
  · left; omega
  · left; omega
  · right; exact ⟨by omega, by omega⟩

/-- The candidate list of the eviction pass is sorted by
`(lastAccessTick ascending, cost descending)`. -/
theorem sortedCandidates_sorted (frame : Nat) (rs : List CRes) :
    List.Pairwise (fun a b => a.lastAccessTick < b.lastAccessTick ∨
        (a.lastAccessTick = b.lastAccessTick ∧ resCost b ≤ resCost a))
      (sortedCandidates frame rs) := by
  have h := List.sorted_mergeSort evictLe_trans evictLe_total
    (rs.filter (isCandidate frame))
  exact h.imp fun hab => (evictLe_iff _ _).1 hab


/-- Claim C4: when the summed (uint32) RAM plus GPU cost of all cached
resources exceeds the budget, the eviction pass marks or erases only
resources that were last accessed more than 100 ticks before the current
frame, are referenced by nothing but the cache (`use_count() == 1`) and
are not `downloading`; it processes them as a leading segment of the list
sorted by `(lastAccessTick ascending, cost descending)`; and it stops
exactly when the accounted memory use is back within budget or the
candidates are exhausted. -/
theorem claim_C4_eviction (frame budget : Nat) (rs : List CRes)
    (hover : budget < u32 (sumRam rs + sumGpu rs)) :
    (∀ p ∈ dataRenderTickEvict frame budget rs,
        p.1 ∈ rs ∧ p.1.lastAccessTick + 100 < frame ∧ p.1.useCount = 1 ∧
          p.1.state ≠ RState.downloading) ∧
    (dataRenderTickEvict frame budget rs).map Prod.fst
      = (sortedCandidates frame rs).take
          (dataRenderTickEvict frame budget rs).length ∧
    List.Pairwise (fun a b => a.lastAccessTick < b.lastAccessTick ∨
        (a.lastAccessTick = b.lastAccessTick ∧ resCost b ≤ resCost a))
      (sortedCandidates frame rs) ∧
    ((dataRenderTickEvict frame budget rs).length
        = (sortedCandidates frame rs).length ∨
      memAfter (u32 (sumRam rs + sumGpu rs))
        ((sortedCandidates frame rs).take
          (dataRenderTickEvict frame budget rs).length) ≤ budget) ∧
    (∀ j < (dataRenderTickEvict frame budget rs).length,
      budget < memAfter (u32 (sumRam rs + sumGpu rs))
        ((sortedCandidates frame rs).take j)) := by
  have hev : dataRenderTickEvict frame budget rs
      = evictWalk budget (u32 (sumRam rs + sumGpu rs))
          (sortedCandidates frame rs) := by
    simp [dataRenderTickEvict, hover]
  refine ⟨?_, ?_, sortedCandidates_sorted frame rs, ?_, ?_⟩
  · intro p hp
    obtain ⟨h1, h2, h3⟩ := mem_dataRenderTickEvict frame budget rs p hp
    simp only [isCandidate, Bool.and_eq_true, decide_eq_true_eq, beq_iff_eq,
      Bool.not_eq_true', beq_eq_false_iff_ne] at h2
    exact ⟨h1, h2.1.1, h2.1.2, h2.2⟩
  · rw [hev]
    exact evictWalk_take budget _ (sortedCandidates frame rs)
  · rw [hev]
    exact evictWalk_stop budget _ (sortedCandidates frame rs)
  · rw [hev]
    intro j hj
    exact evictWalk_min budget _ (sortedCandidates frame rs) j hj

/-- Witness for claim C4, on a one-resource cache over budget. -/
theorem claim_C4_eviction_witness :
    5 < u32 (sumRam [⟨"a", 0, 10, 0, 1, RState.ready⟩]
      + sumGpu [⟨"a", 0, 10, 0, 1, RState.ready⟩]) ∧
    ((∀ p ∈ dataRenderTickEvict 200 5 [⟨"a", 0, 10, 0, 1, RState.ready⟩],
        p.1 ∈ [(⟨"a", 0, 10, 0, 1, RState.ready⟩ : CRes)] ∧
        p.1.lastAccessTick + 100 < 200 ∧ p.1.useCount = 1 ∧
          p.1.state ≠ RState.downloading) ∧
    (dataRenderTickEvict 200 5 [⟨"a", 0, 10, 0, 1, RState.ready⟩]).map Prod.fst
      = (sortedCandidates 200 [⟨"a", 0, 10, 0, 1, RState.ready⟩]).take
          (dataRenderTickEvict 200 5 [⟨"a", 0, 10, 0, 1, RState.ready⟩]).length ∧
    List.Pairwise (fun a b => a.lastAccessTick < b.lastAccessTick ∨
        (a.lastAccessTick = b.lastAccessTick ∧ resCost b ≤ resCost a))
      (sortedCandidates 200 [⟨"a", 0, 10, 0, 1, RState.ready⟩]) ∧
    ((dataRenderTickEvict 200 5 [⟨"a", 0, 10, 0, 1, RState.ready⟩]).length
        = (sortedCandidates 200 [⟨"a", 0, 10, 0, 1, RState.ready⟩]).length ∨
      memAfter (u32 (sumRam [⟨"a", 0, 10, 0, 1, RState.ready⟩]
          + sumGpu [⟨"a", 0, 10, 0, 1, RState.ready⟩]))
        ((sortedCandidates 200 [⟨"a", 0, 10, 0, 1, RState.ready⟩]).take
          (dataRenderTickEvict 200 5
            [⟨"a", 0, 10, 0, 1, RState.ready⟩]).length) ≤ 5) ∧
    (∀ j < (dataRenderTickEvict 200 5
        [⟨"a", 0, 10, 0, 1, RState.ready⟩]).length,
      5 < memAfter (u32 (sumRam [⟨"a", 0, 10, 0, 1, RState.ready⟩]
          + sumGpu [⟨"a", 0, 10, 0, 1, RState.ready⟩]))
        ((sortedCandidates 200 [⟨"a", 0, 10, 0, 1, RState.ready⟩]).take j))) :=
  ⟨by decide, claim_C4_eviction 200 5 [⟨"a", 0, 10, 0, 1, RState.ready⟩]
    (by decide)⟩

/-- A resource none of the eviction actions names survives the pass
unchanged. -/
theorem applyEvict_keep (acts : List (CRes × Bool)) (rs : List CRes)
    (x : CRes) (hx : x ∈ rs) (hno : ∀ a ∈ acts, a.1.name ≠ x.name) :
    x ∈ applyEvict acts rs := by
  unfold applyEvict
  apply List.mem_filterMap.2
  refine ⟨x, hx, ?_⟩
  have hfind : acts.find? (fun a => a.1.name == x.name) = none := by
    apply List.find?_eq_none.2
    intro a ha
    simp [hno a ha]
  rw [hfind]

/-- Claim C5: a resource the eviction pass marks (it was not yet
`finalizing`), once touched before the next pass, is back in
`initializing`; the next pass (within the 100-tick window) neither marks
nor erases it, so it stays in the resource map; and in general the pass
erases a resource only when it encounters it already `finalizing`. -/
theorem claim_C5_two_phase (frame budget : Nat) (rs : List CRes) (r : CRes)
    (frameT frame2 budget2 : Nat) (rs2 : List CRes)
    (hmark : (r, false) ∈ dataRenderTickEvict frame budget rs)
    (hwin : frame2 ≤ frameT + 100)
    (hnodup : (rs2.map CRes.name).Nodup)
    (hmem : touchResource frameT { r with state := RState.finalizing } ∈ rs2) :
    r.state ≠ RState.finalizing ∧
    (touchResource frameT { r with state := RState.finalizing }).state
        = RState.initializing ∧
    (∀ p ∈ dataRenderTickEvict frame2 budget2 rs2,
        p.1 ≠ touchResource frameT { r with state := RState.finalizing }) ∧
    touchResource frameT { r with state := RState.finalizing }
        ∈ dataRenderTick frame2 budget2 rs2 ∧
    (∀ p ∈ dataRenderTickEvict frame budget rs,
        (p.2 = true ↔ p.1.state = RState.finalizing)) := by
  have hstate : r.state ≠ RState.finalizing := by
    have h := (mem_dataRenderTickEvict frame budget rs (r, false) hmark).2.2
    simp at h
    exact h
  have htst : (touchResource frameT
      { r with state := RState.finalizing }).state = RState.initializing := by
    simp [touchResource, touchState]
  have hnotc : isCandidate frame2
      (touchResource frameT { r with state := RState.finalizing }) = false := by
    simp [touchResource, isCandidate]
    intro h
    omega
  have hnot : ∀ p ∈ dataRenderTickEvict frame2 budget2 rs2,
      p.1 ≠ touchResource frameT { r with state := RState.finalizing } := by
    intro p hp heq
    have hc := (mem_dataRenderTickEvict frame2 budget2 rs2 p hp).2.1
    rw [heq, hnotc] at hc
    exact Bool.false_ne_true hc
  refine ⟨hstate, htst, hnot, ?_, ?_⟩
  · apply applyEvict_keep _ _ _ hmem
    intro a ha hname
    have ha1 := (mem_dataRenderTickEvict frame2 budget2 rs2 a ha).1
    have heq : a.1 = touchResource frameT { r with state := RState.finalizing } :=
      List.inj_on_of_nodup_map hnodup ha1 hmem hname
    exact hnot a ha heq
  · intro p hp
    exact (mem_dataRenderTickEvict frame budget rs p hp).2.2

/-- Witness for claim C5: a resource marked at frame 200, touched at frame
200, surviving the pass of frame 201. -/
theorem claim_C5_two_phase_witness :
    (((⟨"a", 0, 10, 0, 1, RState.ready⟩ : CRes), false)
        ∈ dataRenderTickEvict 200 5 [⟨"a", 0, 10, 0, 1, RState.ready⟩] ∧
      201 ≤ 200 + 100 ∧
      ([(touchResource 200 ⟨"a", 0, 10, 0, 1, RState.finalizing⟩ : CRes)].map
        CRes.name).Nodup ∧
      touchResource 200 ⟨"a", 0, 10, 0, 1, RState.finalizing⟩
        ∈ [(touchResource 200 ⟨"a", 0, 10, 0, 1, RState.finalizing⟩ : CRes)]) ∧
    ((⟨"a", 0, 10, 0, 1, RState.ready⟩ : CRes).state ≠ RState.finalizing ∧
      (touchResource 200 ⟨"a", 0, 10, 0, 1, RState.finalizing⟩).state
          = RState.initializing ∧
      (∀ p ∈ dataRenderTickEvict 201 0
          [(touchResource 200 ⟨"a", 0, 10, 0, 1, RState.finalizing⟩ : CRes)],
        p.1 ≠ touchResource 200 ⟨"a", 0, 10, 0, 1, RState.finalizing⟩) ∧
      touchResource 200 ⟨"a", 0, 10, 0, 1, RState.finalizing⟩
        ∈ dataRenderTick 201 0
          [(touchResource 200 ⟨"a", 0, 10, 0, 1, RState.finalizing⟩ : CRes)] ∧
      (∀ p ∈ dataRenderTickEvict 200 5 [⟨"a", 0, 10, 0, 1, RState.ready⟩],
        (p.2 = true ↔ p.1.state = RState.finalizing))) := by
  have hev : dataRenderTickEvict 200 5 [(⟨"a", 0, 10, 0, 1, RState.ready⟩ : CRes)]
      = [((⟨"a", 0, 10, 0, 1, RState.ready⟩ : CRes), false)] := by
    have h : sortedCandidates 200 [(⟨"a", 0, 10, 0, 1, RState.ready⟩ : CRes)]
        = [⟨"a", 0, 10, 0, 1, RState.ready⟩] := by
      simp [sortedCandidates, isCandidate]
    simp [dataRenderTickEvict, h, sumRam, sumGpu, u32, evictWalk]
  refine ⟨⟨by rw [hev]; exact List.mem_singleton.2 rfl, by omega, by decide,
      List.mem_singleton.2 rfl⟩, ?_⟩
  exact claim_C5_two_phase 200 5 [⟨"a", 0, 10, 0, 1, RState.ready⟩]
    ⟨"a", 0, 10, 0, 1, RState.ready⟩ 200 201 0
    [(touchResource 200 ⟨"a", 0, 10, 0, 1, RState.finalizing⟩ : CRes)]
    (by rw [hev]; exact List.mem_singleton.2 rfl) (by omega) (by decide)
    (List.mem_singleton.2 rfl)

/-- Claim C7 counterexample: a visible node that fails the coarseness test
and has no children has every child trivially ready, yet `traverse`
renders it (the final `renderNode` for childless nodes) — the claim, which
demands that the node not be rendered whenever all children are ready,
fails on it. -/
theorem claim_C7_counterexample :
    ¬ (∀ trav : TravNode, trav.visible = true → trav.coarse = false →
        (trav.childs.any childNotReady = false →
          (traverseHier trav false).rendered = false)) := by
  intro h
  exact absurd (h ⟨true, false, []⟩ rfl rfl (by decide)) (by decide)

/-- Claim C7 (amended): for a visible node failing the coarseness test,
not in load-only mode: if some child lacks metadata or has a surface with
missing or unready draws, the node is rendered as fallback and all
children are enqueued load-only; if all children are ready and there is at
least one child, the node is not rendered and the children are enqueued
with `loadOnly` unchanged (false); a childless node is rendered. -/
theorem claim_C7_fallback_amended (trav : TravNode)
    (hv : trav.visible = true) (hc : trav.coarse = false) :
    (trav.childs.any childNotReady = true →
      (traverseHier trav false).rendered = true ∧
      (traverseHier trav false).enqueued = trav.childs.map fun _ => true) ∧
    (trav.childs.any childNotReady = false → trav.childs ≠ [] →
      (traverseHier trav false).rendered = false ∧
      (traverseHier trav false).enqueued = trav.childs.map fun _ => false) ∧
    (trav.childs = [] →
      (traverseHier trav false).rendered = true ∧
      (traverseHier trav false).enqueued = []) := by
  obtain ⟨v, c, childs⟩ := trav
  simp only at hv hc
  subst hv hc
  refine ⟨?_, ?_, ?_⟩
  · intro hb
    have hne : childs.isEmpty = false := by
      cases childs with
      | nil => simp at hb
      | cons x t => rfl
    simp [traverseHier, hb, hne]
  · intro hb hne
    have hne2 : childs.isEmpty = false := by
      cases childs with
      | nil => exact absurd rfl hne
      | cons x t => rfl
    simp [traverseHier, hb, hne2]
  · intro he
    subst he
    simp [traverseHier]

/-- Witness for the amended claim C7, at a node with one ready child. -/
theorem claim_C7_fallback_amended_witness :
    ((⟨true, false, [⟨true, true, false, true⟩]⟩ : TravNode).visible = true ∧
      (⟨true, false, [⟨true, true, false, true⟩]⟩ : TravNode).coarse = false) ∧
    (((⟨true, false, [⟨true, true, false, true⟩]⟩ : TravNode).childs.any
          childNotReady = true →
      (traverseHier ⟨true, false, [⟨true, true, false, true⟩]⟩ false).rendered
          = true ∧
      (traverseHier ⟨true, false, [⟨true, true, false, true⟩]⟩ false).enqueued
        = (⟨true, false, [⟨true, true, false, true⟩]⟩ : TravNode).childs.map
            fun _ => true) ∧
    ((⟨true, false, [⟨true, true, false, true⟩]⟩ : TravNode).childs.any
          childNotReady = false →
      (⟨true, false, [⟨true, true, false, true⟩]⟩ : TravNode).childs ≠ [] →
      (traverseHier ⟨true, false, [⟨true, true, false, true⟩]⟩ false).rendered
          = false ∧
      (traverseHier ⟨true, false, [⟨true, true, false, true⟩]⟩ false).enqueued
        = (⟨true, false, [⟨true, true, false, true⟩]⟩ : TravNode).childs.map
            fun _ => false) ∧
    ((⟨true, false, [⟨true, true, false, true⟩]⟩ : TravNode).childs = [] →
      (traverseHier ⟨true, false, [⟨true, true, false, true⟩]⟩ false).rendered
          = true ∧
      (traverseHier ⟨true, false, [⟨true, true, false, true⟩]⟩ false).enqueued
        = [])) :=
  ⟨⟨rfl, rfl⟩,
    claim_C7_fallback_amended ⟨true, false, [⟨true, true, false, true⟩]⟩
      rfl rfl⟩

/-- The front-to-back order on draw tasks is transitive. -/
theorem opaqueLe_trans (e : Vec3) (a b c : DrawSurfaceTask)
    (h1 : opaqueLe e a b = true) (h2 : opaqueLe e b c = true) :
    opaqueLe e a c = true := by
  simp only [opaqueLe, opaqueCmp, Bool.not_eq_true', decide_eq_false_iff_not,
    Int.not_lt] at h1 h2 ⊢
  omega

/-- The front-to-back order on draw tasks is total. -/
theorem opaqueLe_total (e : Vec3) (a b : DrawSurfaceTask) :
    (opaqueLe e a b || opaqueLe e b a) = true := by
  simp only [opaqueLe, opaqueCmp, Bool.or_eq_true, Bool.not_eq_true',
    decide_eq_false_iff_not, Int.not_lt]
  omega

/-- Claim C9: after `renderUpdate` finishes, the opaque draw list handed
to the renderer is sorted front-to-back — every consecutive pair has
non-decreasing squared distance from the camera eye. -/
theorem claim_C9_opaque_sorted (e : Vec3) (tasks : List DrawSurfaceTask) :
    List.Chain' (fun a b => dist2 e a ≤ dist2 e b)
      (renderUpdateOpaque e tasks) := by
  have h := List.sorted_mergeSort (opaqueLe_trans e) (opaqueLe_total e) tasks
  have h2 : List.Pairwise (fun a b => dist2 e a ≤ dist2 e b)
      (tasks.mergeSort (opaqueLe e)) := by
    refine h.imp fun hab => ?_
    simpa [opaqueLe, opaqueCmp, Int.not_lt] using hab
  exact h2.chain'

/-- In-flight counting distributes over list append. -/
theorem countInflight_append (l1 l2 : List NRes) :
    countInflight (l1 ++ l2) = countInflight l1 + countInflight l2 := by
  simp [countInflight]

/-- In-flight counting unfolds over cons. -/
theorem countInflight_cons (r : NRes) (l : List NRes) :
    countInflight (r :: l)
      = (if r.inflight then 1 else 0) + countInflight l := by
  simp [countInflight]

/-- `dataTick` leaves a resource that is mid-download untouched. -/
theorem dataTickRes_of_downloading (slot : Bool) (r : NRes)
    (h : r.state = RState.downloading) : dataTickRes slot r = (r, false) := by
  simp [dataTickRes, h]

/-- `dataTick` calls the fetcher only when a slot was available, only for
an `initializing` resource, and leaves it `downloading` with the fetch in
flight. -/
theorem dataTickRes_started (slot : Bool) (r : NRes)
    (h : (dataTickRes slot r).2 = true) :
    slot = true ∧ r.state = RState.initializing ∧
    (dataTickRes slot r).1.inflight = true ∧
    (dataTickRes slot r).1.state = RState.downloading := by
  unfold dataTickRes at h ⊢
  split_ifs at h ⊢ <;> simp_all

/-- When `dataTick` does not call the fetcher, the in-flight flag is
unchanged. -/
theorem dataTickRes_not_started (slot : Bool) (r : NRes)
    (h : (dataTickRes slot r).2 = false) :
    (dataTickRes slot r).1.inflight = r.inflight := by
  unfold dataTickRes at h ⊢
  split_ifs at h ⊢ <;> simp_all

/-- The invariant is preserved by a `dataTick` call. -/
theorem Inv_tick (s : Sys) (pre : List NRes) (r : NRes) (post : List NRes)
    (h : s.res = pre ++ r :: post) (hInv : Inv s) :
    Inv (applyTick s pre r post) := by
  obtain ⟨h1, h2, h3⟩ := hInv
  unfold applyTick
  split
  · exact ⟨h1, h2, h3⟩
  rename_i hcr
  simp only [Bool.not_eq_true] at hcr
  rw [h, countInflight_append, countInflight_cons] at h1
  rcases hq : dataTickRes
      (decide (s.downloads < s.maxConcurrentDownloads)) r with ⟨q, b⟩
  simp only [hq]
  rcases b with _ | _
  · have hnot : q.inflight = r.inflight := by
      have hx := dataTickRes_not_started
        (decide (s.downloads < s.maxConcurrentDownloads)) r (by rw [hq])
      rw [hq] at hx
      exact hx
    refine ⟨?_, ?_, ?_⟩
    · simp only [Bool.false_eq_true, if_false, Nat.add_zero,
        countInflight_append, countInflight_cons, hnot]
      exact h1
    · simpa using h2
    · intro _ x hx hxi
      simp only [List.mem_append, List.mem_cons] at hx
      rcases hx with hx | rfl | hx
      · exact h3 hcr x (by simp [h, hx]) hxi
      · have hri : r.inflight = true := by rw [← hnot]; exact hxi
        have hrs := h3 hcr r (by simp [h]) hri
        have heq := dataTickRes_of_downloading
          (decide (s.downloads < s.maxConcurrentDownloads)) r hrs
        rw [hq] at heq
        obtain rfl : x = r := congrArg Prod.fst heq
        exact hrs
      · exact h3 hcr x (by simp [h, hx]) hxi
  · have hx := dataTickRes_started
      (decide (s.downloads < s.maxConcurrentDownloads)) r (by rw [hq])
    rw [hq] at hx
    have hslot : decide (s.downloads < s.maxConcurrentDownloads) = true := hx.1
    have hrs : r.state = RState.initializing := hx.2.1
    have hinfl : q.inflight = true := hx.2.2.1
    have hstate : q.state = RState.downloading := hx.2.2.2
    have hri : r.inflight = false := by
      by_cases hri : r.inflight = true
      · exact absurd (h3 hcr r (by simp [h]) hri) (by simp [hrs])
      · simpa using hri
    have hd : s.downloads < s.maxConcurrentDownloads := by simpa using hslot
    rw [hri] at h1
    refine ⟨?_, ?_, ?_⟩
    · simp only [countInflight_append, countInflight_cons, hinfl]
      simp only [Bool.false_eq_true, if_false, Nat.zero_add] at h1
      simp <;> omega
    · simp <;> omega
    · intro _ x hx2 hxi
      simp only [List.mem_append, List.mem_cons] at hx2
      rcases hx2 with hx2 | rfl | hx2
      · exact h3 hcr x (by simp [h, hx2]) hxi
      · exact hstate
      · exact h3 hcr x (by simp [h, hx2]) hxi


/-- The invariant is preserved by a fetch completion: a refetch keeps the
slot, a normal completion frees it, an escaped exception crashes the
system with the slot leaked. -/
theorem Inv_fetched (s : Sys) (pre : List NRes) (r : NRes) (post : List NRes)
    (resp : FetchResponse) (h : s.res = pre ++ r :: post) (hInv : Inv s) :
    Inv (applyFetched s pre r post resp) := by
  obtain ⟨h1, h2, h3⟩ := hInv
  unfold applyFetched
  split
  · exact ⟨h1, h2, h3⟩
  rename_i hcr
  simp only [Bool.not_eq_true] at hcr
  split
  case isFalse => exact ⟨h1, h2, h3⟩
  rename_i hguard
  obtain ⟨hgs, hgi⟩ := hguard
  rw [h, countInflight_append, countInflight_cons, hgi] at h1
  simp only [if_true] at h1
  split
  · rename_i o ho
    split
    · -- refetch: slot kept
      refine ⟨?_, h2, ?_⟩
      · simp only [countInflight_append, countInflight_cons]
        simpa [hgi] using h1
      · intro _ x hx hxi
        simp only [List.mem_append, List.mem_cons] at hx
        rcases hx with hx | rfl | hx
        · exact h3 hcr x (by simp [h, hx]) hxi
        · exact hgs
        · exact h3 hcr x (by simp [h, hx]) hxi
    · -- completed: slot freed
      refine ⟨?_, ?_, ?_⟩
      · simp only [countInflight_append, countInflight_cons]
        simp
        omega
      · simp
        omega
      · intro _ x hx hxi
        simp only [List.mem_append, List.mem_cons] at hx
        rcases hx with hx | rfl | hx
        · exact h3 hcr x (by simp [h, hx]) hxi
        · simp at hxi
        · exact h3 hcr x (by simp [h, hx]) hxi
  · -- exception escaped: crash, slot leaked
    refine ⟨?_, h2, ?_⟩
    · simp only [countInflight_append, countInflight_cons]
      simpa [hgi] using h1
    · intro hcx
      simp at hcx

/-- The invariant is preserved by `touchResource`. -/
theorem Inv_touched (s : Sys) (pre : List NRes) (r : NRes) (post : List NRes)
    (h : s.res = pre ++ r :: post) (hInv : Inv s) :
    Inv (applyTouched s pre r post) := by
  obtain ⟨h1, h2, h3⟩ := hInv
  unfold applyTouched
  split
  · exact ⟨h1, h2, h3⟩
  rename_i hcr
  simp only [Bool.not_eq_true] at hcr
  rw [h, countInflight_append, countInflight_cons] at h1
  refine ⟨?_, h2, ?_⟩
  · simp only [countInflight_append, countInflight_cons]
    simpa using h1
  · intro _ x hx hxi
    simp only [List.mem_append, List.mem_cons] at hx
    rcases hx with hx | rfl | hx
    · exact h3 hcr x (by simp [h, hx]) hxi
    · simp only at hxi
      have hrs := h3 hcr r (by simp [h]) hxi
      simp [touchState, hrs]
    · exact h3 hcr x (by simp [h, hx]) hxi

/-- The invariant is preserved by an eviction mark (which never targets a
`downloading` resource). -/
theorem Inv_evictMark (s : Sys) (pre : List NRes) (r : NRes)
    (post : List NRes) (h : s.res = pre ++ r :: post)
    (hc : s.crashed = false) (hs : r.state ≠ RState.downloading)
    (hInv : Inv s) :
    Inv { s with res := pre ++ { r with state := RState.finalizing } :: post } := by
  obtain ⟨h1, h2, h3⟩ := hInv
  rw [h, countInflight_append, countInflight_cons] at h1
  refine ⟨?_, h2, ?_⟩
  · simp only [countInflight_append, countInflight_cons]
    simpa using h1
  · intro _ x hx hxi
    simp only [List.mem_append, List.mem_cons] at hx
    rcases hx with hx | rfl | hx
    · exact h3 hc x (by simp [h, hx]) hxi
    · simp only at hxi
      exact absurd (h3 hc r (by simp [h]) hxi) hs
    · exact h3 hc x (by simp [h, hx]) hxi

/-- The invariant is preserved by an eviction erase (second encounter,
state already `finalizing`). -/
theorem Inv_evictErase (s : Sys) (pre : List NRes) (r : NRes)
    (post : List NRes) (h : s.res = pre ++ r :: post)
    (hc : s.crashed = false) (hs : r.state = RState.finalizing)
    (hInv : Inv s) : Inv { s with res := pre ++ post } := by
  obtain ⟨h1, h2, h3⟩ := hInv
  have hri : r.inflight = false := by
    by_cases hri : r.inflight = true
    · exact absurd (h3 hc r (by simp [h]) hri) (by simp [hs])
    · simpa using hri
  rw [h, countInflight_append, countInflight_cons, hri] at h1
  refine ⟨?_, h2, ?_⟩
  · simp only [countInflight_append]
    simp at h1
    omega
  · intro _ x hx hxi
    simp only [List.mem_append] at hx
    rcases hx with hx | hx
    · exact h3 hc x (by simp [h, hx]) hxi
    · exact h3 hc x (by simp [h, hx]) hxi

/-- The invariant is preserved by creation of a fresh resource. -/
theorem Inv_create (s : Sys) (nr : NRes) (hc : s.crashed = false)
    (hs : nr.state = RState.initializing) (hi : nr.inflight = false)
    (hInv : Inv s) : Inv { s with res := s.res ++ [nr] } := by
  obtain ⟨h1, h2, h3⟩ := hInv
  refine ⟨?_, h2, ?_⟩
  · simp only [countInflight_append, countInflight_cons]
    simp [countInflight, hi]
    exact h1
  · intro _ x hx hxi
    simp only [List.mem_append, List.mem_singleton] at hx
    rcases hx with hx | rfl
    · exact h3 hc x hx hxi
    · exact absurd hxi (by simp [hi])

/-- Every operation of the pipeline preserves the invariant. -/
theorem Inv_step (s t : Sys) (hs : Step s t) (hInv : Inv s) : Inv t := by
  cases hs with
  | tick pre r post h => exact Inv_tick s pre r post h hInv
  | fetched pre r post resp h => exact Inv_fetched s pre r post resp h hInv
  | touched pre r post h => exact Inv_touched s pre r post h hInv
  | evictMark pre r post h hc hstate =>
      exact Inv_evictMark s pre r post h hc hstate hInv
  | evictErase pre r post h hc hstate =>
      exact Inv_evictErase s pre r post h hc hstate hInv
  | create nr hc hstate hi => exact Inv_create s nr hc hstate hi hInv

/-- The invariant holds in every reachable state. -/
theorem Inv_reachable (s : Sys) (h : Reachable s) : Inv s := by
  induction h with
  | init maxC =>
      exact ⟨rfl, Nat.zero_le _, by intro _ r hr; simp at hr⟩
  | step hr hs ih => exact Inv_step _ _ hs ih

/-- Claim C6: in every reachable state the number of resources with an
in-flight network download is at most `options.maxConcurrentDownloads`; a
remote resource whose turn comes with no slot available stays
`initializing`; and with 20 requested remote resources and a limit of 10,
one `dataTick` each leaves exactly 10 `downloading` (all with fetches in
flight) and 10 still `initializing`. -/
theorem claim_C6_download_limit :
    (∀ s : Sys, Reachable s →
      countInflight s.res ≤ s.maxConcurrentDownloads) ∧
    (∀ r : NRes, r.state = RState.initializing → r.blacklisted = false →
      r.hasScheme = true → (r.isJson = true ∨ r.inDiskCache = false) →
      dataTickRes false r = (r, false)) ∧
    countState (tickSeq 10 0 (List.replicate 20 remoteRes))
        RState.downloading = 10 ∧
    countState (tickSeq 10 0 (List.replicate 20 remoteRes))
        RState.initializing = 10 ∧
    countInflight (tickSeq 10 0 (List.replicate 20 remoteRes)) = 10 := by
  refine ⟨?_, ?_, by decide, by decide, by decide⟩
  · intro s hs
    obtain ⟨h1, h2, _⟩ := Inv_reachable s hs
    omega
  · intro r h1 h2 h3 h4
    unfold dataTickRes
    rcases h4 with h4 | h4 <;> simp [h1, h2, h3, h4]

/-- Witness for claim C6, at the initial state and a fresh remote
resource. -/
theorem claim_C6_download_limit_witness :
    Reachable (Sys.mk 10 0 [] false) ∧
    countInflight (Sys.mk 10 0 [] false).res
        ≤ (Sys.mk 10 0 [] false).maxConcurrentDownloads ∧
    (remoteRes.state = RState.initializing ∧ remoteRes.blacklisted = false ∧
      remoteRes.hasScheme = true ∧
      (remoteRes.isJson = true ∨ remoteRes.inDiskCache = false)) ∧
    dataTickRes false remoteRes = (remoteRes, false) := by
  have h := claim_C6_download_limit
  exact ⟨Reachable.init 10, h.1 _ (Reachable.init 10),
    ⟨rfl, rfl, rfl, Or.inl rfl⟩, h.2.1 remoteRes rfl rfl rfl (Or.inl rfl)⟩

end Vts
